import Mathlib

/-!
Shallow embedding of the `Analytic` differentiator from
`src/openmdao.lib/src/openmdao/lib/differentiators/analytic.py`.

The embedding models the core pipeline of the class `Analytic`:
`_edge_counter` (variable enumeration), `setup` (allocation plus the
EQS/EQS_zero rows), `_assemble_direct` (recursive assembly of LHS/RHS),
`_solve` (dense linear solve and gradient combination), `calc_gradient`,
and the accessors `get_derivative` / `get_gradient`.

External collaborators (dependency graph, expression mapper, unit converter,
local-derivative provider) are modelled as data carried by the model, exactly
at the granularity the Python code consumes them.  Python floats are modelled
as rationals; Python exceptions are modelled with `Except PyErr`.  Python
dictionaries iterated by the code are modelled as association lists in
insertion order (CPython iteration over an unchanged dict is deterministic).
-/

/-- The failure modes of the Python code, by raising site. -/
inductive PyErr where
  /-- `NotImplementedError("Only nested solvers are supported")` (lines 213, 261). -/
  | onlyNestedSolvers
  /-- `NotImplementedError('Nested drivers')` (line 294). -/
  | nestedDrivers
  /-- `NotImplementedError("No independent in solver equation.")` (line 282). -/
  | noIndependent
  /-- `ValueError` from `list.index` on a missing element. -/
  | valueError
  /-- `IndexError` from subscripting an empty sequence (`sources[0]`, `target_unit[0]`). -/
  | indexError
  /-- `KeyError` from a missing dictionary key (`local_derivs[...]`). -/
  | keyError
  /-- `UnboundLocalError` from reading a local variable that was never assigned. -/
  | unboundLocal
  /-- `numpy.linalg.LinAlgError` from `linalg.solve` on a singular system. -/
  | singular
deriving DecidableEq, Repr

/-- Dense matrices, indexed as the numpy arrays in the source. -/
abbrev Mat := Nat → Nat → ℚ

/-- Write one entry of a matrix (`M[i][j] = v`). -/
def mset (M : Mat) (i j : Nat) (v : ℚ) : Mat :=
  fun a b => if a = i ∧ b = j then v else M a b

/-- `numpy.zeros`. -/
def zeroMat : Mat := fun _ _ => 0

/-- Position of the first occurrence of `s`, as Python `list.index` finds it. -/
def idxOf : List String → String → Option Nat
  | [], _ => none
  | x :: xs, s => if x = s then some 0 else (idxOf xs s).map (· + 1)

/-- Python `list.index`, raising `ValueError` when the element is missing. -/
def pyIndex (l : List String) (s : String) : Except PyErr Nat :=
  match idxOf l s with
  | some i => .ok i
  | none => .error .valueError

/-- Dictionary lookup on an association list with unique keys. -/
def alookup : List (String × String) → String → Option String
  | [], _ => none
  | (a, b) :: rest, k => if a = k then some b else alookup rest k

/-- Python dict assignment `d[k] = v`: replace an existing key, else append. -/
def dictInsert : List (String × String) → String → String → List (String × String)
  | [], k, v => [(k, v)]
  | (a, b) :: rest, k, v => if a = k then (k, v) :: rest else (a, b) :: dictInsert rest k v

/-- Lookup of the component-local first derivative `derivs[o][i]`;
`none` models a `KeyError`. -/
def pyDeriv (d : String → String → Option ℚ) (o i : String) : Except PyErr ℚ :=
  match d o i with
  | some v => .ok v
  | none => .error .keyError

/-- A terminal component: its edge-dictionary entry (inputs, outputs) and the
local first derivatives delivered by `node.derivatives.first_derivatives`. -/
structure Comp where
  name : String
  inputs : List String
  outputs : List String
  derivs : String → String → Option ℚ

/-- The per-scope external collaborators consumed by the assembler:
`_depgraph.connections_to`, `_exprmapper.get_expr(e).refs().pop()`,
`expr.evaluate_gradient(...)[source]`, and the `units` metadata of an
expression for a given referenced variable. -/
structure ScopeData where
  connectionsTo : String → List (String × String)
  exprSource : String → String
  exprDeriv : String → ℚ
  exprUnit : String → String → Option String

/-- A nested sub-assembly: its name and pathname, whether its inner driver is a
`Run_Once`, its boundary edge dictionary entry, and its own scope collaborators. -/
structure AsmInfo where
  name : String
  pathname : String
  innerRunOnce : Bool
  bins : List String
  bouts : List String
  scope : ScopeData

/-- A nested driver: solver capability flag, its parameters, its equality
constraints (as the two referenced varpaths of each), and its edge entry. -/
structure DrvInfo where
  name : String
  isSolver : Bool
  params : List String
  eqcons : List (String × String)
  edges0 : List String
  edges1 : List String

mutual

/-- A node of a workflow, as dispatched by `isinstance` in the source. -/
inductive Node where
  | comp : Comp → Node
  | asm : AsmInfo → Workflow → Node
  | drv : DrvInfo → Workflow → Node

/-- A workflow, iterated in order by `dscope.workflow.__iter__()`. -/
inductive Workflow where
  | nil : Workflow
  | cons : Node → Workflow → Workflow
end

/-- The name of a node (`node.name`). -/
def nodeName : Node → String
  | .comp c => c.name
  | .asm a _ => a.name
  | .drv d _ => d.name

/-- The edge-dictionary pair `edges` of a node; slot 0 is the input names,
slot 1 the output names. -/
def edgeSel (n : Node) (i : Nat) : List String :=
  match n with
  | .comp c => if i = 0 then c.inputs else c.outputs
  | .asm a _ => if i = 0 then a.bins else a.bouts
  | .drv d _ => if i = 0 then d.edges0 else d.edges1

/-- `index_bar = 0 if index==1 else 1` (line 189). -/
def indexBar (index : Nat) : Nat := if index = 1 then 0 else 1

/-- `if head: head = '%s.' % head` (lines 186-187 and 250-251). -/
def dotHead (head : String) : String := if head = "" then head else head ++ "."

mutual

/-- One iteration of the loop body of `_edge_counter` (lines 192-222),
for the node named by one edge-dictionary entry.  `h` is the already
dotted head, `vl` the variable list accumulated so far. -/
def _edge_counter_node (index : Nat) (h : String) (vl : List String) :
    Node → Except PyErr (List String)
  | .comp c =>
      .ok (vl ++ (edgeSel (.comp c) index).map (fun onm => h ++ c.name ++ "." ++ onm))
  | .asm a w =>
      let vl := vl ++ (edgeSel (.asm a w) (indexBar index)).map
        (fun inm => h ++ a.name ++ "." ++ inm)
      match _edge_counter_list index (dotHead a.pathname) vl w with
      | .error e => .error e
      | .ok vl =>
          .ok (vl ++ (edgeSel (.asm a w) index).map (fun onm => h ++ a.name ++ "." ++ onm))
  | .drv d w =>
      if d.isSolver then
        match _edge_counter_list index (dotHead h) vl w with
        | .error e => .error e
        | .ok vl =>
            .ok (vl ++ (edgeSel (.drv d w) index).map (fun onm => h ++ d.name ++ "." ++ onm))
      else .error .onlyNestedSolvers

/-- The loop of `_edge_counter` over the entries of one scope's edge dict. -/
def _edge_counter_list (index : Nat) (h : String) (vl : List String) :
    Workflow → Except PyErr (List String)
  | .nil => .ok vl
  | .cons n w =>
      match _edge_counter_node index h vl n with
      | .error e => .error e
      | .ok vl => _edge_counter_list index h vl w
end

/-- `Analytic._edge_counter` (lines 178-222): one frame, which dots the head
and walks the scope's edge dict. -/
def _edge_counter (index : Nat) (head : String) (vl : List String) (w : Workflow) :
    Except PyErr (List String) :=
  _edge_counter_list index (dotHead head) vl w

/-- The mutable state of an `Analytic` instance that the claims inspect.
The `diagOK` field is a ghost flag maintained by `setLHS`: it records whether
every LHS write so far that landed on a diagonal cell wrote the value 1.0.
It does not influence any computed value. -/
structure St where
  var_list : List String
  n_var : Nat
  LHS : Mat
  RHS : Mat
  EQS : Mat
  EQS_zero : Mat
  gradient : Mat
  diagOK : Bool

/-- `self.LHS[i][j] = v`, with the ghost diagonal bookkeeping. -/
def setLHS (st : St) (i j : Nat) (v : ℚ) : St :=
  { st with LHS := mset st.LHS i j v,
            diagOK := st.diagOK && (decide (i ≠ j) || decide (v = 1)) }

/-- The Python locals of one `_assemble_direct` frame that are assigned in one
loop iteration and read in another (`output_name`, `local_derivs`, `expr_txt`,
`target`).  `none` models an unbound local. -/
structure Frame where
  output_name : Option String
  local_derivs : Option (String → String → Option ℚ)
  expr_txt : Option String
  target : Option String

/-- A fresh frame: no local assigned yet. -/
def Frame.empty : Frame := ⟨none, none, none, none⟩

/-- A model, made of the data the differentiator reads from its parent driver
and from the external collaborators.  `objectives` carries, per objective, the
gradient dictionary returned by `expr.evaluate_gradient`; `constraints`
carries, per constraint, the left and right gradient dictionaries and the
comparator string returned by `constraint.evaluate_gradient`. -/
structure Model where
  rootScope : ScopeData
  workflow : Workflow
  param_names : List String
  objectives : List (String × List (String × ℚ))
  constraints : List (String × List (String × ℚ) × List (String × ℚ) × String)
  convertUnits : String → String → ℚ
  mode : String

/-- Modelled from the spec: the Function list is built by `ChainRule.setup`,
which is not under `src/`; per the spec it is the ordered list of objective
names followed by constraint names, parallel to the rows of the gradient
matrix. -/
def function_names (m : Model) : List String :=
  m.objectives.map Prod.fst ++ m.constraints.map Prod.fst

/-- Routing of one objective-gradient entry (lines 126-136): a parameter name
goes to `EQS_zero`, a variable-list name to `EQS`; plain assignment. -/
def objRow (params vl : List String) (i_eq : Nat) (st : St) :
    List (String × ℚ) → St
  | [] => st
  | (nm, v) :: rest =>
      let st :=
        match idxOf params nm with
        | some ip => { st with EQS_zero := mset st.EQS_zero i_eq ip v }
        | none =>
            match idxOf vl nm with
            | some iv => { st with EQS := mset st.EQS i_eq iv v }
            | none => st
      objRow params vl i_eq st rest

/-- Routing of one side of a constraint gradient (lines 150-174): the entry is
scaled by `sgn` and accumulated (`+=`) into `EQS_zero` or `EQS`. -/
def conSide (params vl : List String) (sgn : ℚ) (i_eq : Nat) (st : St) :
    List (String × ℚ) → St
  | [] => st
  | (nm, v0) :: rest =>
      let v := sgn * v0
      let st :=
        match idxOf params nm with
        | some ip =>
            { st with EQS_zero := mset st.EQS_zero i_eq ip (st.EQS_zero i_eq ip + v) }
        | none =>
            match idxOf vl nm with
            | some iv => { st with EQS := mset st.EQS i_eq iv (st.EQS i_eq iv + v) }
            | none => st
      conSide params vl sgn i_eq st rest

/-- Processing of one constraint (lines 144-176): pick the sign from the
comparator, accumulate `sign*lhs` then `-sign*rhs`. -/
def conStep (params vl : List String) (i_eq : Nat)
    (lg rg : List (String × ℚ)) (comparator : String) (st : St) : St :=
  let sgn : ℚ := if comparator.contains '>' then -1 else 1
  conSide params vl (-sgn) i_eq (conSide params vl sgn i_eq st lg) rg

/-- The objective loop of `setup` (lines 120-138). -/
def objLoop (params vl : List String) (i_eq : Nat) (st : St) :
    List (String × List (String × ℚ)) → St × Nat
  | [] => (st, i_eq)
  | (_, g) :: rest => objLoop params vl (i_eq + 1) (objRow params vl i_eq st g) rest

/-- The constraint loop of `setup` (lines 141-176). -/
def conLoop (params vl : List String) (i_eq : Nat) (st : St) :
    List (String × List (String × ℚ) × List (String × ℚ) × String) → St × Nat
  | [] => (st, i_eq)
  | (_, lg, rg, cmp) :: rest =>
      conLoop params vl (i_eq + 1) (conStep params vl i_eq lg rg cmp st) rest

/-- `Analytic.setup` (lines 91-176): enumerate the unknowns, allocate the
matrices, and fill the `EQS`/`EQS_zero` rows once. -/
def setup (m : Model) : Except PyErr St :=
  let index := if m.mode = "adjoint" then 0 else 1
  match _edge_counter index "" [] m.workflow with
  | .error e => .error e
  | .ok vl =>
      let st : St :=
        { var_list := vl, n_var := vl.length, LHS := zeroMat, RHS := zeroMat,
          EQS := zeroMat, EQS_zero := zeroMat, gradient := zeroMat, diagOK := true }
      let (st, i_eq) := objLoop m.param_names vl 0 st m.objectives
      let (st, _) := conLoop m.param_names vl i_eq st m.constraints
      .ok st

/-- The ambient context of one `_assemble_direct` frame: the unit converter,
the driver's parameter list, the current assembly scope `ascope`, the already
dotted head, and `solver_conns` (None or the enclosing solver's dictionary). -/
structure Ctx where
  cu : String → String → ℚ
  params : List String
  ascope : ScopeData
  h : String
  sc : Option (List (String × String))

/-- `solver_conns is not None and input_full in solver_conns`, returning the
stored dependent (`solver_conns[input_full]`) when the test passes. -/
def scLookup (sc : Option (List (String × String))) (k : String) : Option String :=
  match sc with
  | some d => alookup d k
  | none => none

/-- The unit-conversion step shared by lines 331-341, 380-390 and 458-468:
if the expression has truthy `units` metadata for `src`, multiply the
derivative by `convert_units(1.0, source_unit, target_unit)`, where the
target unit is read from the expression of `tgt`; an absent target unit is
the `IndexError` of `target_unit[0]`. -/
def applyUnits (cu : String → String → ℚ) (sd : ScopeData) (e src tgt : String)
    (d : ℚ) : Except PyErr ℚ :=
  match sd.exprUnit e src with
  | some su =>
      if su = "" then .ok d
      else
        match sd.exprUnit tgt tgt with
        | some tu => .ok (d * cu su tu)
        | none => .error .indexError
  | none => .ok d

/-- Rule (c) of the input classification, lines 440-475: resolve the external
upstream connection of `input_full`, strip a leading `@bin` marker from the
expression text, chain the expression derivative with any unit conversion,
and write the negated product into the column of the upstream unknown. -/
def procInputExt (ctx : Ctx) (derivs : String → String → Option ℚ)
    (input_full o inp : String) (st : St) (i_eq : Nat) (fr : Frame) :
    Except PyErr (St × Frame) :=
  match ctx.ascope.connectionsTo input_full with
  | [] => .error .indexError
  | (et0, tg) :: _ =>
      let fr2 := { fr with expr_txt := some et0, target := some tg }
      let et := if et0.startsWith "@bin" then et0.replace "@bin." "" else et0
      let source := ctx.ascope.exprSource et
      match applyUnits ctx.cu ctx.ascope et source tg (ctx.ascope.exprDeriv et) with
      | .error e => .error e
      | .ok ed =>
          match idxOf st.var_list (ctx.h ++ source) with
          | some i_var =>
              match derivs o inp with
              | some v => .ok (setLHS st i_eq i_var (-v * ed), fr2)
              | none => .error .keyError
          | none => .error .valueError

/-- The body of the input loop of the terminal-component branch
(lines 417-475): classify one `(output, input)` pair and write its
contribution.  `i_eq` is the current equation row. -/
def procInput (ctx : Ctx) (derivs : String → String → Option ℚ) (cname o : String)
    (st : St) (i_eq : Nat) (fr : Frame) (inp : String) : Except PyErr (St × Frame) :=
  let input_full := cname ++ "." ++ inp
  match idxOf ctx.params input_full with
  | some i_param =>
      match derivs o inp with
      | some v => .ok ({ st with RHS := mset st.RHS i_eq i_param v }, fr)
      | none => .error .keyError
  | none =>
      match scLookup ctx.sc input_full with
      | some source =>
          match idxOf st.var_list source with
          | some i_dep =>
              match derivs o inp with
              | some v => .ok (setLHS st i_eq i_dep (-v), fr)
              | none => .error .keyError
          | none => .error .valueError
      | none => procInputExt ctx derivs input_full o inp st i_eq fr

/-- The input loop of the terminal-component branch (lines 418-475). -/
def compInputs (ctx : Ctx) (derivs : String → String → Option ℚ) (cname o : String)
    (st : St) (i_eq : Nat) (fr : Frame) : List String → Except PyErr (St × Frame)
  | [] => .ok (st, fr)
  | inp :: rest =>
      match procInput ctx derivs cname o st i_eq fr inp with
      | .error e => .error e
      | .ok (st, fr) => compInputs ctx derivs cname o st i_eq fr rest

/-- The output loop of the terminal-component branch (lines 411-477): open a
row with diagonal 1.0, process every input, then advance `i_eq`. -/
def compOutputs (ctx : Ctx) (derivs : String → String → Option ℚ) (cname : String)
    (inputs : List String) (st : St) (i_eq : Nat) (fr : Frame) :
    List String → Except PyErr (St × Nat × Frame)
  | [] => .ok (st, i_eq, fr)
  | o :: rest =>
      let st := setLHS st i_eq i_eq 1
      let fr := { fr with output_name := some o }
      match compInputs ctx derivs cname o st i_eq fr inputs with
      | .error e => .error e
      | .ok (st, fr) => compOutputs ctx derivs cname inputs st (i_eq + 1) fr rest

/-- One iteration of the boundary-input loop of the sub-assembly branch
(lines 299-348).  The parameter path reads the frame locals `local_derivs`
and `output_name`, which this branch never assigns. -/
def asmInput (ctx : Ctx) (aname : String) (st : St) (i_eq : Nat) (fr : Frame)
    (inp : String) : Except PyErr (St × Frame) :=
  let st := setLHS st i_eq i_eq 1
  let input_full := aname ++ "." ++ inp
  match idxOf ctx.params input_full with
  | some i_param =>
      match fr.output_name, fr.local_derivs with
      | some o, some ld =>
          match ld o inp with
          | some v => .ok ({ st with RHS := mset st.RHS i_eq i_param v }, fr)
          | none => .error .keyError
      | _, _ => .error .unboundLocal
  | none =>
      match ctx.ascope.connectionsTo input_full with
      | [] => .error .indexError
      | (et, tg) :: _ =>
          let fr := { fr with expr_txt := some et, target := some tg }
          let source0 := ctx.ascope.exprSource et
          let source :=
            if source0.startsWith "@bin" ∧ source0.toList.count '.' < 2 then
              source0.replace "@bin." "" else source0
          match applyUnits ctx.cu ctx.ascope et source tg (ctx.ascope.exprDeriv et) with
          | .error e => .error e
          | .ok ed =>
              match idxOf st.var_list (ctx.h ++ source) with
              | some i_var => .ok (setLHS st i_eq i_var (-ed), fr)
              | none => .error .valueError

/-- The boundary-input loop of the sub-assembly branch; `i_eq` advances after
each boundary input. -/
def asmInputs (ctx : Ctx) (aname : String) (st : St) (i_eq : Nat) (fr : Frame) :
    List String → Except PyErr (St × Nat × Frame)
  | [] => .ok (st, i_eq, fr)
  | inp :: rest =>
      match asmInput ctx aname st i_eq fr inp with
      | .error e => .error e
      | .ok (st, fr) => asmInputs ctx aname st (i_eq + 1) fr rest

/-- `'@bout' in connect[1]`. -/
def hasBout (s : String) : Bool := (s.splitOn "@bout").length > 1

/-- The frame locals `expr_txt` and `target`, when both are bound. -/
def frameET (fr : Frame) : Option (String × String) :=
  match fr.expr_txt, fr.target with
  | some e, some t => some (e, t)
  | _, _ => none

/-- The tail of one boundary-output iteration (lines 370-399), after the
locals `expr_txt`/`target` have been determined: strip the `@bout` marker,
chain the interior expression derivative with any unit conversion, and write
the negated result into the column of the interior source. -/
def asmOutputCore (ctx : Ctx) (aname : String) (sub : ScopeData) (st : St)
    (i_eq : Nat) (fr : Frame) (et tg0 : String) : Except PyErr (St × Frame) :=
  let tg := if tg0.startsWith "@bout" then tg0.replace "@bout." "" else tg0
  let fr2 := { fr with target := some tg }
  let source := sub.exprSource et
  match applyUnits ctx.cu sub et source tg (sub.exprDeriv et) with
  | .error e => .error e
  | .ok ed =>
      match idxOf st.var_list (ctx.h ++ aname ++ "." ++ source) with
      | some i_var => .ok (setLHS st i_eq i_var (-ed), fr2)
      | none => .error .valueError

/-- One iteration of the boundary-output loop of the sub-assembly branch
(lines 357-399): open the row, find the interior connection feeding the
boundary output (`'@bout' in connect[1]`); when no connection matches, the
Python locals `expr_txt`/`target` keep their values from an earlier iteration
of this frame, and are unbound if no iteration assigned them. -/
def asmOutput (ctx : Ctx) (aname : String) (sub : ScopeData) (st : St) (i_eq : Nat)
    (fr : Frame) (onm : String) : Except PyErr (St × Frame) :=
  let st2 := setLHS st i_eq i_eq 1
  match (sub.connectionsTo onm).find? (fun c => hasBout c.2) with
  | some (e, t) =>
      asmOutputCore ctx aname sub st2 i_eq
        { fr with expr_txt := some e, target := some t } e t
  | none =>
      match frameET fr with
      | some (e, t) => asmOutputCore ctx aname sub st2 i_eq fr e t
      | none => .error .unboundLocal

/-- The boundary-output loop of the sub-assembly branch. -/
def asmOutputs (ctx : Ctx) (aname : String) (sub : ScopeData) (st : St) (i_eq : Nat)
    (fr : Frame) : List String → Except PyErr (St × Nat × Frame)
  | [] => .ok (st, i_eq, fr)
  | onm :: rest =>
      match asmOutput ctx aname sub st i_eq fr onm with
      | .error e => .error e
      | .ok (st, fr) => asmOutputs ctx aname sub st (i_eq + 1) fr rest

/-- The solver-dictionary construction of the nested-driver branch
(lines 264-284): for each equality constraint, whichever referenced varpath
is one of the solver's parameters is the independent, the other the
dependent; neither being a parameter is fatal. -/
def buildSolverDict (params : List String) (acc : List (String × String)) :
    List (String × String) → Except PyErr (List (String × String))
  | [] => .ok acc
  | (c1, c2) :: rest =>
      if c1 ∈ params then buildSolverDict params (dictInsert acc c1 c2) rest
      else if c2 ∈ params then buildSolverDict params (dictInsert acc c2 c1) rest
      else .error .noIndependent

mutual

/-- One iteration of the workflow loop of `_assemble_direct` (lines 254-477). -/
def _asm_node (ctx : Ctx) (st : St) (i_eq : Nat) (fr : Frame) :
    Node → Except PyErr (St × Nat × Frame)
  | .drv d w =>
      if d.isSolver then
        match buildSolverDict d.params [] d.eqcons with
        | .error e => .error e
        | .ok sd =>
            let ctxSolver : Ctx := { ctx with sc := some sd, h := dotHead ctx.h }
            match _asm_list ctxSolver st i_eq Frame.empty w with
            | .error e => .error e
            | .ok (st, i_eq, _) => .ok (st, i_eq, fr)
      else .error .onlyNestedSolvers
  | .asm a w =>
      if a.innerRunOnce then
        match asmInputs ctx a.name st i_eq fr a.bins with
        | .error e => .error e
        | .ok (st, i_eq, fr) =>
            let ctxInner : Ctx :=
              { ctx with ascope := a.scope, sc := none, h := dotHead a.pathname }
            match _asm_list ctxInner st i_eq Frame.empty w with
            | .error e => .error e
            | .ok (st, i_eq, _) =>
                match asmOutputs ctx a.name a.scope st i_eq fr a.bouts with
                | .error e => .error e
                | .ok r => .ok r
      else .error .nestedDrivers
  | .comp c =>
      let fr := { fr with local_derivs := some c.derivs }
      compOutputs ctx c.derivs c.name c.inputs st i_eq fr c.outputs

/-- The workflow loop of `_assemble_direct`. -/
def _asm_list (ctx : Ctx) (st : St) (i_eq : Nat) (fr : Frame) :
    Workflow → Except PyErr (St × Nat × Frame)
  | .nil => .ok (st, i_eq, fr)
  | .cons n w =>
      match _asm_node ctx st i_eq fr n with
      | .error e => .error e
      | .ok (st, i_eq, fr) => _asm_list ctx st i_eq fr w
end

/-- The context of the top-level `_assemble_direct` call (line 237): assembly
scope is the parent assembly, head is empty, `solver_conns` is None. -/
def topCtx (m : Model) : Ctx :=
  { cu := m.convertUnits, params := m.param_names, ascope := m.rootScope,
    h := dotHead "", sc := none }

/-- `Analytic._assemble_direct` as called from `calc_gradient`, with the
equation counter starting at 0 and a fresh frame of locals. -/
def _assemble_direct (m : Model) (st : St) : Except PyErr (St × Nat) :=
  match _asm_list (topCtx m) st 0 Frame.empty m.workflow with
  | .error e => .error e
  | .ok (st, i_eq, _) => .ok (st, i_eq)

/-- Subtract `c` times row `p` from row `r` (one Gaussian elimination step). -/
def subRowScaled (r p : List ℚ) (c : ℚ) : List ℚ :=
  List.zipWith (fun a b => a - c * b) r p

/-- Find a row whose leading coefficient is nonzero; keep the others in order. -/
def findPivot : List (List ℚ) → Option (List ℚ × List (List ℚ))
  | [] => none
  | r :: rs =>
      if r.headD 0 ≠ 0 then some (r, rs)
      else
        match findPivot rs with
        | none => none
        | some (p, rest) => some (p, r :: rest)

/-- Exact Gaussian elimination with back substitution on an augmented matrix
(`n` unknowns, each row `n` coefficients followed by the right-hand sides);
`none` models the `LinAlgError` a singular system raises. -/
def gaussAux : Nat → List (List ℚ) → Option (List (List ℚ))
  | 0, _ => some []
  | n + 1, rows =>
      match findPivot rows with
      | none => none
      | some (p, rest) =>
          let hd := p.headD 0
          let pn := p.tail.map (· / hd)
          let rest2 := rest.map (fun r => subRowScaled r.tail pn (r.headD 0))
          match gaussAux n rest2 with
          | none => none
          | some sol =>
              let coeffs := pn.take n
              let consts := pn.drop n
              let x0 := (coeffs.zip sol).foldl
                (fun acc cs => subRowScaled acc cs.2 cs.1) consts
              some (x0 :: sol)

/-- `numpy.linalg.solve(A, B)`, idealized over exact rationals. -/
def linalg_solve (A B : List (List ℚ)) : Option (List (List ℚ)) :=
  gaussAux A.length (List.zipWith (· ++ ·) A B)

/-- Read an `n × p` block of a functional matrix into rows. -/
def toRows (M : Mat) (n p : Nat) : List (List ℚ) :=
  (List.range n).map (fun i => (List.range p).map (M i))

/-- `Analytic._solve` (lines 481-489): solve `LHS · X = RHS` and combine
`gradient = EQS_zero + EQS · X`. -/
def _solve (m : Model) (st : St) : Except PyErr St :=
  match linalg_solve (toRows st.LHS st.n_var st.n_var)
      (toRows st.RHS st.n_var m.param_names.length) with
  | none => .error .singular
  | some X =>
      let g : Mat := fun i j =>
        st.EQS_zero i j +
          (List.range st.n_var).foldl
            (fun a k => a + st.EQS i k * ((X.getD k []).getD j 0)) 0
      .ok { st with gradient := g }

/-- `if self._parent not in self.edge_dicts: self.setup()` (lines 230-231):
the cached state, when present, stands for a prior `setup` of this model. -/
def cachedSetup (m : Model) (cached : Option St) : Except PyErr St :=
  match cached with
  | none => setup m
  | some st => .ok st

/-- `Analytic.calc_gradient` (lines 225-239). -/
def calc_gradient (m : Model) (cached : Option St) : Except PyErr St :=
  match cachedSetup m cached with
  | .error e => .error e
  | .ok st =>
      if m.mode = "direct" then
        match _assemble_direct m st with
        | .error e => .error e
        | .ok (st, _) => _solve m st
      else _solve m st

/-- `Analytic.get_derivative` (lines 61-75). -/
def get_derivative (m : Model) (st : St) (output_name wrt : String) :
    Except PyErr ℚ :=
  match pyIndex m.param_names wrt with
  | .error e => .error e
  | .ok i_param =>
      match pyIndex (function_names m) output_name with
      | .error e => .error e
      | .ok i_func => .ok (st.gradient i_func i_param)

/-- `Analytic.get_gradient` (lines 78-88): the full row of the gradient
matrix for one function. -/
def get_gradient (m : Model) (st : St) (output_name : String) :
    Except PyErr (List ℚ) :=
  match pyIndex (function_names m) output_name with
  | .error e => .error e
  | .ok i_func => .ok ((List.range m.param_names.length).map (st.gradient i_func))

/-- A scope with no connections and trivial expressions. -/
def emptyScope : ScopeData :=
  { connectionsTo := fun _ => [], exprSource := fun s => s,
    exprDeriv := fun _ => 1, exprUnit := fun _ _ => none }

/-- A default state, used only to project out of `Except` values. -/
def stDefault : St :=
  { var_list := [], n_var := 0, LHS := zeroMat, RHS := zeroMat, EQS := zeroMat,
    EQS_zero := zeroMat, gradient := zeroMat, diagOK := true }

/-- Local derivatives of a one-input one-output component. -/
def oneDeriv (o i : String) (v : ℚ) : String → String → Option ℚ :=
  fun a b => if a = o ∧ b = i then some v else none

/-- The two-component chain `param -> A -> B` of the spec's worked example:
`A.x` is the parameter, `dA.y/dA.x = 2`, `B.u` is connected to `A.y`,
`dB.v/dB.u = 3`, and the objective is `B.v`. -/
def chainM : Model :=
  { rootScope :=
      { connectionsTo := fun s => if s = "B.u" then [("A.y", "B.u")] else [],
        exprSource := fun s => s, exprDeriv := fun _ => 1,
        exprUnit := fun _ _ => none },
    workflow := .cons (.comp ⟨"A", ["x"], ["y"], oneDeriv "y" "x" 2⟩)
      (.cons (.comp ⟨"B", ["u"], ["v"], oneDeriv "v" "u" 3⟩) .nil),
    param_names := ["A.x"],
    objectives := [("B.v", [("B.v", 1)])],
    constraints := [],
    convertUnits := fun _ _ => 1,
    mode := "direct" }

/-- The state `setup` computes for the chain model. -/
def chainSt : St := ((setup chainM).toOption).getD stDefault

/-- The chain model evaluated in adjoint mode (nothing else changed). -/
def chainAdjM : Model := { chainM with mode := "adjoint" }

/-- The chain model with a unit boundary on the `A.y -> B.u` connection:
source units `m`, target units `cm`, conversion factor 2. -/
def unitChainM : Model :=
  { chainM with
    rootScope :=
      { connectionsTo := fun s => if s = "B.u" then [("A.y", "B.u")] else [],
        exprSource := fun s => s, exprDeriv := fun _ => 1,
        exprUnit := fun e v =>
          if e = "A.y" ∧ v = "A.y" then some "m"
          else if e = "B.u" ∧ v = "B.u" then some "cm" else none },
    convertUnits := fun u v => if u = "m" ∧ v = "cm" then 2 else 1 }

/-- A nested solver that drives `c.x` to satisfy `c.x = c.y` around the single
component `c` with `dc.y/dc.x = 5`: the solver's dependent is the very output
whose row is being assembled. -/
def selfSolverM : Model :=
  { rootScope := emptyScope,
    workflow := .cons
      (.drv ⟨"s", true, ["c.x"], [("c.x", "c.y")], [], []⟩
        (.cons (.comp ⟨"c", ["x"], ["y"], oneDeriv "y" "x" 5⟩) .nil))
      .nil,
    param_names := [], objectives := [], constraints := [],
    convertUnits := fun _ _ => 1, mode := "direct" }

/-- A sub-assembly whose boundary input `s.a` is directly connected to the
parameter `s.a`, placed first in the workflow. -/
def asmBugM : Model :=
  { rootScope := emptyScope,
    workflow := .cons (.asm ⟨"s", "top.s", true, ["a"], [], emptyScope⟩ .nil) .nil,
    param_names := ["s.a"], objectives := [], constraints := [],
    convertUnits := fun _ _ => 1, mode := "direct" }

/-- A workflow containing one nested driver without solver capability. -/
def badDrvM : Model :=
  { rootScope := emptyScope,
    workflow := .cons (.drv ⟨"d", false, [], [], [], []⟩ .nil) .nil,
    param_names := [], objectives := [], constraints := [],
    convertUnits := fun _ _ => 1, mode := "direct" }

/-- A workflow whose first node is a nested solver with a malformed equality
constraint (neither side is a solver parameter) and whose second node is a
nested driver without solver capability. -/
def preemptM : Model :=
  { rootScope := emptyScope,
    workflow := .cons (.drv ⟨"s", true, ["x"], [("p", "q")], [], []⟩ .nil)
      (.cons (.drv ⟨"d", false, [], [], [], []⟩ .nil) .nil),
    param_names := [], objectives := [], constraints := [],
    convertUnits := fun _ _ => 1, mode := "direct" }

/-- Rows outside `[k, k')` are untouched, the variable list is unchanged, and
(tracking the ghost flag) every row opened in `[k, k')` ends with diagonal 1. -/
def AsmInv (st st2 : St) (k k2 : Nat) : Prop :=
  k ≤ k2 ∧ st2.var_list = st.var_list ∧
    (∀ i j, i < k ∨ k2 ≤ i → st2.LHS i j = st.LHS i j) ∧
    (st2.diagOK = true → st.diagOK = true ∧ ∀ i, k ≤ i → i < k2 → st2.LHS i i = 1)

/-- A single-row step that only touches row `k` and leaves its diagonal 1
whenever the ghost flag survives. -/
def RowOk (st st2 : St) (k : Nat) : Prop :=
  st2.var_list = st.var_list ∧ (∀ i j, i ≠ k → st2.LHS i j = st.LHS i j) ∧
    (st2.diagOK = true → st.diagOK = true ∧ st2.LHS k k = 1)

/-- A within-row step that only touches row `k` and preserves a diagonal 1
whenever the ghost flag survives. -/
def RowPres (st st2 : St) (k : Nat) : Prop :=
  st2.var_list = st.var_list ∧ (∀ i j, i ≠ k → st2.LHS i j = st.LHS i j) ∧
    (st2.diagOK = true → st.diagOK = true ∧ (st.LHS k k = 1 → st2.LHS k k = 1))

/-- The assembled state of the chain model, for witnesses. -/
def chainAsm : Except PyErr (St × Nat) := _assemble_direct chainM chainSt

/-- The state component of `chainAsm`. -/
def chainAsmSt : St := (chainAsm.toOption.map Prod.fst).getD stDefault

mutual

/-- Whether a node contains, anywhere the traversals reach, a nested driver
without solver capability. -/
def nodeHasBad : Node → Bool
  | .comp _ => false
  | .asm _ w => wfHasBad w
  | .drv d w => !d.isSolver || wfHasBad w

/-- Whether a workflow contains a nested driver without solver capability. -/
def wfHasBad : Workflow → Bool
  | .nil => false
  | .cons n w => nodeHasBad n || wfHasBad w
end

/-- The direct-mode pipeline of `calc_gradient`: (cached) setup, one assembly
pass, one solve. -/
def assembleThenSolve (m : Model) (cached : Option St) : Except PyErr St :=
  match cachedSetup m cached with
  | .error e => .error e
  | .ok st =>
      match _assemble_direct m st with
      | .error e => .error e
      | .ok (st2, _) => _solve m st2

/-- The pipeline with the assembly pass skipped: (cached) setup, then solve. -/
def setupThenSolve (m : Model) (cached : Option St) : Except PyErr St :=
  match cachedSetup m cached with
  | .error e => .error e
  | .ok st => _solve m st

/-- The additive contribution of one constraint side to `EQS` at sign `sgn`:
an entry routed to a variable-list column adds `sgn * value` there. -/
def eqsDelta (params vl : List String) (sgn : ℚ) (i_eq : Nat) :
    List (String × ℚ) → Mat
  | [] => fun _ _ => 0
  | (nm, v) :: rest => fun r q =>
      (match idxOf params nm with
       | some _ => 0
       | none =>
           match idxOf vl nm with
           | some iv => if r = i_eq ∧ q = iv then sgn * v else 0
           | none => 0) + eqsDelta params vl sgn i_eq rest r q

/-- The additive contribution of one constraint side to `EQS_zero`. -/
def eqs0Delta (params vl : List String) (sgn : ℚ) (i_eq : Nat) :
    List (String × ℚ) → Mat
  | [] => fun _ _ => 0
  | (nm, v) :: rest => fun r q =>
      (match idxOf params nm with
       | some ip => if r = i_eq ∧ q = ip then sgn * v else 0
       | none => 0) + eqs0Delta params vl sgn i_eq rest r q

/-- The state `setup` computes for the unit-conversion chain model. -/
def unitChainSt : St := ((setup unitChainM).toOption).getD stDefault

/-- The key of a solver dictionary whose stored dependent equals `v`. -/
def akeyOf : List (String × String) → String → Option String
  | [], _ => none
  | (a, b) :: rest, v => if b = v then some a else akeyOf rest v

/-- The input-classification rule exactly as claim C10 words it, kept for
comparison with `procInput`: same fixed precedence, but the solver rule fires
when the input's full name is a dependent in the enclosing solver's map (a
stored value), and it writes the negative local derivative into the LHS
column of the corresponding independent variable (the key). -/
def procInputClaim (ctx : Ctx) (derivs : String → String → Option ℚ)
    (cname o : String) (st : St) (i_eq : Nat) (fr : Frame) (inp : String) :
    Except PyErr (St × Frame) :=
  let input_full := cname ++ "." ++ inp
  match idxOf ctx.params input_full with
  | some i_param =>
      match derivs o inp with
      | some v => .ok ({ st with RHS := mset st.RHS i_eq i_param v }, fr)
      | none => .error .keyError
  | none =>
      match (match ctx.sc with
             | some dict => akeyOf dict input_full
             | none => none) with
      | some indep =>
          match idxOf st.var_list indep with
          | some i_ind =>
              match derivs o inp with
              | some v => .ok (setLHS st i_eq i_ind (-v), fr)
              | none => .error .keyError
          | none => .error .valueError
      | none => procInputExt ctx derivs input_full o inp st i_eq fr

/-- The context of the C10 counterexample: the enclosing solver's dictionary
maps the independent `c9.q` to the dependent `c2.x2`, and `c2.x2` is also
externally connected to the upstream output `c1.y1`. -/
def ctxC10 : Ctx :=
  { cu := fun _ _ => 1, params := [],
    ascope :=
      { connectionsTo := fun s => if s = "c2.x2" then [("c1.y1", "c2.x2")] else [],
        exprSource := fun s => s, exprDeriv := fun _ => 1,
        exprUnit := fun _ _ => none },
    h := "", sc := some [("c9.q", "c2.x2")] }

/-- A state whose variable list holds the two outputs of the C10 model. -/
def stC10 : St := { stDefault with var_list := ["c1.y1", "c2.y2"] }

theorem asmInvRefl (st : St) (k : Nat) : AsmInv st st k k :=
  ⟨le_rfl, rfl, fun _ _ _ => rfl, fun h => ⟨h, fun _ h1 h2 => absurd (lt_of_le_of_lt h1 h2) (lt_irrefl _)⟩⟩

theorem asmInvTrans {st st1 st2 : St} {k k1 k2 : Nat}
    (a : AsmInv st st1 k k1) (b : AsmInv st1 st2 k1 k2) : AsmInv st st2 k k2 := by
  obtain ⟨hk, hv, hout, hdiag⟩ := a
  obtain ⟨hk2, hv2, hout2, hdiag2⟩ := b
  refine ⟨le_trans hk hk2, hv2.trans hv, ?_, ?_⟩
  · intro i j hij
    rcases hij with hlt | hge
    · rw [hout2 i j (Or.inl (lt_of_lt_of_le hlt hk)), hout i j (Or.inl hlt)]
    · rw [hout2 i j (Or.inr hge), hout i j (Or.inr (le_trans hk2 hge))]
  · intro hok2
    obtain ⟨hok1, hd2⟩ := hdiag2 hok2
    obtain ⟨hok0, hd1⟩ := hdiag hok1
    refine ⟨hok0, fun i h1 h2 => ?_⟩
    by_cases hc : i < k1
    · rw [hout2 i i (Or.inl hc)]; exact hd1 i h1 hc
    · exact hd2 i (le_of_not_lt hc) h2

theorem RowOk.toInv {st st2 : St} {k : Nat} (h : RowOk st st2 k) :
    AsmInv st st2 k (k + 1) := by
  obtain ⟨hv, hout, hdiag⟩ := h
  refine ⟨Nat.le_succ k, hv, ?_, ?_⟩
  · intro i j hij
    apply hout
    rcases hij with hlt | hge
    · exact Nat.ne_of_lt hlt
    · exact (Nat.ne_of_gt (Nat.lt_of_succ_le hge))
  · intro hok
    obtain ⟨hok0, hd⟩ := hdiag hok
    refine ⟨hok0, fun i h1 h2 => ?_⟩
    have : i = k := Nat.le_antisymm (Nat.le_of_lt_succ h2) h1
    rw [this]; exact hd

theorem rowPresRefl (st : St) (k : Nat) : RowPres st st k :=
  ⟨Eq.refl _, fun _ _ _ => Eq.refl _, fun h => ⟨h, id⟩⟩

theorem rowPresTrans {st st1 st2 : St} {k : Nat}
    (a : RowPres st st1 k) (b : RowPres st1 st2 k) : RowPres st st2 k := by
  obtain ⟨hv, hout, hd⟩ := a
  obtain ⟨hv2, hout2, hd2⟩ := b
  refine ⟨hv2.trans hv, fun i j hij => (hout2 i j hij).trans (hout i j hij), ?_⟩
  intro hok2
  obtain ⟨hok1, hp2⟩ := hd2 hok2
  obtain ⟨hok0, hp1⟩ := hd hok1
  exact ⟨hok0, fun h1 => hp2 (hp1 h1)⟩

theorem setLHS_rowPres (st : St) (k j : Nat) (v : ℚ) :
    RowPres st (setLHS st k j v) k := by
  refine ⟨rfl, ?_, ?_⟩
  · intro i b hib
    simp only [setLHS, mset]
    rw [if_neg (fun hc => hib hc.1)]
  · intro hok
    simp only [setLHS, Bool.and_eq_true, Bool.or_eq_true, decide_eq_true_eq] at hok
    refine ⟨hok.1, fun h1 => ?_⟩
    simp only [setLHS, mset]
    by_cases hkj : k = j
    · subst hkj
      rcases hok.2 with hne | hv1
      · exact absurd rfl hne
      · simp [hv1]
    · rw [if_neg (fun hc => hkj hc.2)]
      exact h1

theorem rhsSet_rowPres (st : St) (k : Nat) (R : Mat) :
    RowPres st { st with RHS := R } k :=
  ⟨rfl, fun _ _ _ => rfl, fun h => ⟨h, id⟩⟩

theorem RowPres.toRowOk {st st2 : St} {k : Nat}
    (h : RowPres (setLHS st k k 1) st2 k) : RowOk st st2 k := by
  obtain ⟨hv, hout, hd⟩ := h
  refine ⟨hv, ?_, ?_⟩
  · intro i j hij
    rw [hout i j hij]
    simp only [setLHS, mset]
    rw [if_neg (fun hc => hij hc.1)]
  · intro hok
    obtain ⟨hok1, hp⟩ := hd hok
    simp only [setLHS, Bool.and_eq_true] at hok1
    refine ⟨hok1.1, ?_⟩
    apply hp
    simp [setLHS, mset]

theorem procInputExt_pres {ctx : Ctx} {derivs : String → String → Option ℚ}
    {input_full o inp : String} {st : St} {i_eq : Nat} {fr : Frame}
    {st2 : St} {fr2 : Frame}
    (h : procInputExt ctx derivs input_full o inp st i_eq fr = .ok (st2, fr2)) :
    RowPres st st2 i_eq := by
  simp only [procInputExt] at h
  repeat' split at h
  all_goals cases h
  all_goals exact setLHS_rowPres st i_eq _ _

theorem procInput_pres {ctx : Ctx} {derivs : String → String → Option ℚ}
    {cname o : String} {st : St} {i_eq : Nat} {fr : Frame} {inp : String}
    {st2 : St} {fr2 : Frame}
    (h : procInput ctx derivs cname o st i_eq fr inp = .ok (st2, fr2)) :
    RowPres st st2 i_eq := by
  simp only [procInput] at h
  repeat' split at h
  all_goals first
    | (cases h; exact rhsSet_rowPres st i_eq _)
    | (cases h; exact setLHS_rowPres st i_eq _ _)
    | cases h
    | exact procInputExt_pres h

theorem compInputs_pres : ∀ (l : List String) {ctx : Ctx}
    {derivs : String → String → Option ℚ} {cname o : String} {st : St}
    {i_eq : Nat} {fr : Frame} {st2 : St} {fr2 : Frame},
    compInputs ctx derivs cname o st i_eq fr l = .ok (st2, fr2) →
    RowPres st st2 i_eq := by
  intro l
  induction l with
  | nil =>
      intro ctx derivs cname o st i_eq fr st2 fr2 h
      simp only [compInputs] at h
      cases h
      exact rowPresRefl _ _
  | cons inp rest ih =>
      intro ctx derivs cname o st i_eq fr st2 fr2 h
      simp only [compInputs] at h
      split at h
      · cases h
      · exact rowPresTrans (procInput_pres (by assumption)) (ih h)

theorem compOutputs_inv : ∀ (outs : List String) {ctx : Ctx}
    {derivs : String → String → Option ℚ} {cname : String} {inputs : List String}
    {st : St} {i_eq : Nat} {fr : Frame} {st2 : St} {i2 : Nat} {fr2 : Frame},
    compOutputs ctx derivs cname inputs st i_eq fr outs = .ok (st2, i2, fr2) →
    AsmInv st st2 i_eq i2 := by
  intro outs
  induction outs with
  | nil =>
      intro ctx derivs cname inputs st i_eq fr st2 i2 fr2 h
      simp only [compOutputs] at h
      cases h
      exact asmInvRefl _ _
  | cons o rest ih =>
      intro ctx derivs cname inputs st i_eq fr st2 i2 fr2 h
      simp only [compOutputs] at h
      split at h
      · cases h
      · exact asmInvTrans (RowOk.toInv (RowPres.toRowOk (compInputs_pres _ (by assumption)))) (ih h)

theorem asmInput_rowOk {ctx : Ctx} {aname : String} {st : St} {i_eq : Nat}
    {fr : Frame} {inp : String} {st2 : St} {fr2 : Frame}
    (h : asmInput ctx aname st i_eq fr inp = .ok (st2, fr2)) :
    RowOk st st2 i_eq := by
  simp only [asmInput] at h
  repeat' split at h
  all_goals cases h
  all_goals first
    | exact RowPres.toRowOk (rhsSet_rowPres _ i_eq _)
    | exact RowPres.toRowOk (setLHS_rowPres _ i_eq _ _)

theorem asmInputs_inv : ∀ (l : List String) {ctx : Ctx} {aname : String}
    {st : St} {i_eq : Nat} {fr : Frame} {st2 : St} {i2 : Nat} {fr2 : Frame},
    asmInputs ctx aname st i_eq fr l = .ok (st2, i2, fr2) →
    AsmInv st st2 i_eq i2 := by
  intro l
  induction l with
  | nil =>
      intro ctx aname st i_eq fr st2 i2 fr2 h
      simp only [asmInputs] at h
      cases h
      exact asmInvRefl _ _
  | cons inp rest ih =>
      intro ctx aname st i_eq fr st2 i2 fr2 h
      simp only [asmInputs] at h
      split at h
      · cases h
      · exact asmInvTrans (RowOk.toInv (asmInput_rowOk (by assumption))) (ih h)

theorem asmOutputCore_pres {ctx : Ctx} {aname : String} {sub : ScopeData}
    {st : St} {i_eq : Nat} {fr : Frame} {et tg0 : String} {st2 : St} {fr2 : Frame}
    (h : asmOutputCore ctx aname sub st i_eq fr et tg0 = .ok (st2, fr2)) :
    RowPres st st2 i_eq := by
  simp only [asmOutputCore] at h
  repeat' split at h
  all_goals cases h
  all_goals exact setLHS_rowPres _ i_eq _ _

theorem asmOutput_rowOk {ctx : Ctx} {aname : String} {sub : ScopeData} {st : St}
    {i_eq : Nat} {fr : Frame} {onm : String} {st2 : St} {fr2 : Frame}
    (h : asmOutput ctx aname sub st i_eq fr onm = .ok (st2, fr2)) :
    RowOk st st2 i_eq := by
  simp only [asmOutput] at h
  repeat' split at h
  all_goals first
    | cases h
    | exact RowPres.toRowOk (asmOutputCore_pres h)

theorem asmOutputs_inv : ∀ (l : List String) {ctx : Ctx} {aname : String}
    {sub : ScopeData} {st : St} {i_eq : Nat} {fr : Frame} {st2 : St} {i2 : Nat}
    {fr2 : Frame},
    asmOutputs ctx aname sub st i_eq fr l = .ok (st2, i2, fr2) →
    AsmInv st st2 i_eq i2 := by
  intro l
  induction l with
  | nil =>
      intro ctx aname sub st i_eq fr st2 i2 fr2 h
      simp only [asmOutputs] at h
      cases h
      exact asmInvRefl _ _
  | cons onm rest ih =>
      intro ctx aname sub st i_eq fr st2 i2 fr2 h
      simp only [asmOutputs] at h
      split at h
      · cases h
      · exact asmInvTrans (RowOk.toInv (asmOutput_rowOk (by assumption))) (ih h)

mutual
theorem _asm_node_inv : ∀ (n : Node) (ctx : Ctx) (st : St) (i_eq : Nat)
    (fr : Frame) (st2 : St) (i2 : Nat) (fr2 : Frame),
    _asm_node ctx st i_eq fr n = .ok (st2, i2, fr2) → AsmInv st st2 i_eq i2
  | .comp c, ctx, st, i_eq, fr, st2, i2, fr2 => by
      intro h
      simp only [_asm_node] at h
      exact compOutputs_inv _ h
  | .drv d w, ctx, st, i_eq, fr, st2, i2, fr2 => by
      intro h
      simp only [_asm_node] at h
      repeat' split at h
      all_goals cases h
      exact _asm_list_inv w _ _ _ _ _ _ _ (by assumption)
  | .asm a w, ctx, st, i_eq, fr, st2, i2, fr2 => by
      intro h
      simp only [_asm_node] at h
      repeat' split at h
      all_goals cases h
      exact asmInvTrans (asmInvTrans (asmInputs_inv _ (by assumption))
        (_asm_list_inv w _ _ _ _ _ _ _ (by assumption)))
        (asmOutputs_inv _ (by assumption))

theorem _asm_list_inv : ∀ (w : Workflow) (ctx : Ctx) (st : St) (i_eq : Nat)
    (fr : Frame) (st2 : St) (i2 : Nat) (fr2 : Frame),
    _asm_list ctx st i_eq fr w = .ok (st2, i2, fr2) → AsmInv st st2 i_eq i2
  | .nil, ctx, st, i_eq, fr, st2, i2, fr2 => by
      intro h
      simp only [_asm_list] at h
      cases h
      exact asmInvRefl _ _
  | .cons n w, ctx, st, i_eq, fr, st2, i2, fr2 => by
      intro h
      simp only [_asm_list] at h
      split at h
      · cases h
      · exact asmInvTrans (_asm_node_inv n _ _ _ _ _ _ _ (by assumption))
          (_asm_list_inv w _ _ _ _ _ _ _ h)
end

/-- C2 (amended): every row the assembler opens has its diagonal set to 1.0,
and in the final LHS every opened row's diagonal is exactly 1.0 provided no
coupling write in that row targeted its own diagonal (the ghost flag
`diagOK`); rows outside the assembled range are never touched. -/
theorem C2_diagonal_amended (m : Model) (st st2 : St) (k : Nat)
    (h : _assemble_direct m st = .ok (st2, k)) (hok : st2.diagOK = true) :
    ∀ i, i < k → st2.LHS i i = 1 := by
  unfold _assemble_direct at h
  split at h
  · cases h
  · cases h
    have inv := _asm_list_inv m.workflow _ _ _ _ _ _ _ (by assumption)
    exact fun i hi => (inv.2.2.2 hok).2 i (Nat.zero_le i) hi

/-- C2 counterexample: the single-component self-coupled solver model is
accepted by assembly (no structural error, one row per unknown), yet the final
diagonal entry is -5, not 1: the solver-dependent write of line 436 lands on
the row's own diagonal and overwrites the 1.0 written at line 413. -/
theorem C2_counterexample :
    (setup selfSolverM).toOption.map St.var_list = some ["c.y"] ∧
    (_assemble_direct selfSolverM ((setup selfSolverM).toOption.getD stDefault)).toOption.map
        (fun p => (p.1.LHS 0 0, p.2)) = some (-5, 1) ∧
    ((-5 : ℚ) ≠ 1) := by
  refine ⟨by decide, ?_, by norm_num⟩
  with_unfolding_all decide

theorem C2_diagonal_witness :
    chainAsmSt.diagOK = true ∧ chainAsmSt.LHS 0 0 = 1 ∧ chainAsmSt.LHS 1 1 = 1 :=
  ⟨by with_unfolding_all decide,
   C2_diagonal_amended chainM chainSt chainAsmSt 2 (by with_unfolding_all rfl)
     (by with_unfolding_all decide) 0 (by decide),
   C2_diagonal_amended chainM chainSt chainAsmSt 2 (by with_unfolding_all rfl)
     (by with_unfolding_all decide) 1 (by decide)⟩

mutual
theorem _edge_counter_node_err : ∀ (n : Node) (index : Nat) (h : String)
    (vl : List String) (e : PyErr),
    _edge_counter_node index h vl n = .error e → e = .onlyNestedSolvers
  | .comp c, index, h, vl, e => by
      intro he
      simp only [_edge_counter_node] at he
      cases he
  | .asm a w, index, h, vl, e => by
      intro he
      simp only [_edge_counter_node] at he
      split at he
      · cases he
        exact _edge_counter_list_err w _ _ _ _ (by assumption)
      · cases he
  | .drv d w, index, h, vl, e => by
      intro he
      simp only [_edge_counter_node] at he
      split at he
      · split at he
        · cases he
          exact _edge_counter_list_err w _ _ _ _ (by assumption)
        · cases he
      · cases he; rfl

theorem _edge_counter_list_err : ∀ (w : Workflow) (index : Nat) (h : String)
    (vl : List String) (e : PyErr),
    _edge_counter_list index h vl w = .error e → e = .onlyNestedSolvers
  | .nil, index, h, vl, e => by
      intro he
      simp only [_edge_counter_list] at he
      cases he
  | .cons n w, index, h, vl, e => by
      intro he
      simp only [_edge_counter_list] at he
      split at he
      · cases he
        exact _edge_counter_node_err n _ _ _ _ (by assumption)
      · exact _edge_counter_list_err w _ _ _ _ he
end

mutual
theorem _edge_counter_node_ok : ∀ (n : Node) (index : Nat) (h : String)
    (vl vl2 : List String),
    _edge_counter_node index h vl n = .ok vl2 → nodeHasBad n = false
  | .comp c, index, h, vl, vl2 => by
      intro he
      rfl
  | .asm a w, index, h, vl, vl2 => by
      intro he
      simp only [_edge_counter_node] at he
      split at he
      · cases he
      · simp only [nodeHasBad]
        exact _edge_counter_list_ok w _ _ _ _ (by assumption)
  | .drv d w, index, h, vl, vl2 => by
      intro he
      simp only [_edge_counter_node] at he
      split at he
      · split at he
        · cases he
        · simp only [nodeHasBad]
          have hs : d.isSolver = true := by assumption
          rw [hs]
          simp only [Bool.not_true, Bool.false_or]
          exact _edge_counter_list_ok w _ _ _ _ (by assumption)
      · cases he

theorem _edge_counter_list_ok : ∀ (w : Workflow) (index : Nat) (h : String)
    (vl vl2 : List String),
    _edge_counter_list index h vl w = .ok vl2 → wfHasBad w = false
  | .nil, index, h, vl, vl2 => by
      intro he
      rfl
  | .cons n w, index, h, vl, vl2 => by
      intro he
      simp only [_edge_counter_list] at he
      split at he
      · cases he
      · simp only [wfHasBad, Bool.or_eq_false_iff]
        exact ⟨_edge_counter_node_ok n _ _ _ _ (by assumption),
          _edge_counter_list_ok w _ _ _ _ he⟩
end

/-- A workflow containing a driver without solver capability makes the
enumerator fail, and its only failure is the solver signal. -/
theorem edge_counter_bad (w : Workflow) (index : Nat) (head : String)
    (vl : List String) (hbad : wfHasBad w = true) :
    _edge_counter index head vl w = .error .onlyNestedSolvers := by
  unfold _edge_counter
  cases hres : _edge_counter_list index (dotHead head) vl w with
  | ok vl2 =>
      rw [_edge_counter_list_ok w _ _ _ _ hres] at hbad
      cases hbad
  | error e =>
      rw [_edge_counter_list_err w _ _ _ _ hres]

mutual
theorem _asm_node_ok_noBad : ∀ (n : Node) (ctx : Ctx) (st : St) (i_eq : Nat)
    (fr : Frame) (st2 : St) (i2 : Nat) (fr2 : Frame),
    _asm_node ctx st i_eq fr n = .ok (st2, i2, fr2) → nodeHasBad n = false
  | .comp c, ctx, st, i_eq, fr, st2, i2, fr2 => by
      intro h
      rfl
  | .drv d w, ctx, st, i_eq, fr, st2, i2, fr2 => by
      intro h
      simp only [_asm_node] at h
      split at h
      · split at h
        · cases h
        · split at h
          · cases h
          · cases h
            simp only [nodeHasBad]
            have hs : d.isSolver = true := by assumption
            rw [hs]
            simp only [Bool.not_true, Bool.false_or]
            exact _asm_list_ok_noBad w _ _ _ _ _ _ _ (by assumption)
      · cases h
  | .asm a w, ctx, st, i_eq, fr, st2, i2, fr2 => by
      intro h
      simp only [_asm_node] at h
      split at h
      · split at h
        · cases h
        · split at h
          · cases h
          · split at h
            · cases h
            · cases h
              simp only [nodeHasBad]
              exact _asm_list_ok_noBad w _ _ _ _ _ _ _ (by assumption)
      · cases h

theorem _asm_list_ok_noBad : ∀ (w : Workflow) (ctx : Ctx) (st : St) (i_eq : Nat)
    (fr : Frame) (st2 : St) (i2 : Nat) (fr2 : Frame),
    _asm_list ctx st i_eq fr w = .ok (st2, i2, fr2) → wfHasBad w = false
  | .nil, ctx, st, i_eq, fr, st2, i2, fr2 => by
      intro h
      rfl
  | .cons n w, ctx, st, i_eq, fr, st2, i2, fr2 => by
      intro h
      simp only [_asm_list] at h
      split at h
      · cases h
      · simp only [wfHasBad, Bool.or_eq_false_iff]
        exact ⟨_asm_node_ok_noBad n _ _ _ _ _ _ _ (by assumption),
          _asm_list_ok_noBad w _ _ _ _ _ _ _ h⟩
end

/-- C3 (amended): every direct-mode `calc_gradient` call performs exactly one
assembly pass followed by one linear solve; in adjoint mode the assembler is
skipped and the solve runs directly on the matrices left by `setup` (or the
cached state). -/
theorem C3_passes_amended (m : Model) (cached : Option St) :
    (m.mode = "direct" → calc_gradient m cached = assembleThenSolve m cached) ∧
    (m.mode ≠ "direct" → calc_gradient m cached = setupThenSolve m cached) := by
  constructor
  · intro hm
    unfold calc_gradient assembleThenSolve
    cases hs : cachedSetup m cached with
    | error e => rfl
    | ok st =>
        dsimp only
        rw [if_pos hm]
  · intro hm
    unfold calc_gradient setupThenSolve
    cases hs : cachedSetup m cached with
    | error e => rfl
    | ok st =>
        dsimp only
        rw [if_neg hm]

theorem C3_passes_witness :
    calc_gradient chainM none = assembleThenSolve chainM none ∧
    calc_gradient chainAdjM none = setupThenSolve chainAdjM none :=
  ⟨(C3_passes_amended chainM none).1 (by decide),
   (C3_passes_amended chainAdjM none).2 (by decide)⟩

/-- C3 counterexample: on the chain model in adjoint mode, `calc_gradient`
returns the singular-system error because `_solve` runs on the all-zero LHS
left by `setup` — the assembly pass was skipped.  Had the call performed an
assembly pass before solving, as the claim states for both modes, the result
would have been different (here, a `ValueError` from the direct assembler run
on the adjoint variable list), so the call is observably not
assemble-then-solve. -/
theorem C3_counterexample :
    calc_gradient chainAdjM none = .error .singular ∧
    assembleThenSolve chainAdjM none = .error .valueError ∧
    (Except.error .singular : Except PyErr St) ≠ .error .valueError := by
  refine ⟨?_, ?_, ?_⟩
  · with_unfolding_all rfl
  · with_unfolding_all rfl
  · intro hcontra
    cases hcontra

/-- C1: on the two-unknown chain `param -> A -> B` with local derivatives 2.0
and 3.0 and objective `B.v`, the assembled system is LHS = [[1,0],[-3,1]]
(variable order `A.y`, `B.v`), RHS = [[2],[0]], the solve yields total
derivatives [[2],[6]], and `derivative('B.v','A.x')` returns exactly 6, the
product of the two local partials. -/
theorem C1_chain_example :
    (_assemble_direct chainM chainSt).toOption.map
        (fun p => (p.1.LHS 0 0, p.1.LHS 0 1, p.1.LHS 1 0, p.1.LHS 1 1)) =
      some (1, 0, -3, 1) ∧
    (_assemble_direct chainM chainSt).toOption.map
        (fun p => (p.1.RHS 0 0, p.1.RHS 1 0)) = some (2, 0) ∧
    linalg_solve [[1, 0], [-3, 1]] [[2], [0]] = some [[2], [6]] ∧
    get_derivative chainM ((calc_gradient chainM none).toOption.getD stDefault)
      "B.v" "A.x" = .ok 6 ∧
    (6 : ℚ) = 2 * 3 := by
  refine ⟨?_, ?_, ?_, ?_, by norm_num⟩
  · with_unfolding_all rfl
  · with_unfolding_all rfl
  · with_unfolding_all rfl
  · with_unfolding_all rfl

/-- C4 (code bug): a sub-assembly boundary input directly connected to a
parameter makes `_assemble_direct` read the frame locals `local_derivs` and
`output_name` (lines 309-310), which that branch never assigns; with the
sub-assembly first in the workflow the locals are unbound and assembly
raises `UnboundLocalError` instead of writing the local derivative into RHS
and succeeding. -/
theorem C4_asm_param_bug :
    (setup asmBugM).toOption.map St.var_list = some ["s.a"] ∧
    _assemble_direct asmBugM ((setup asmBugM).toOption.getD stDefault) =
      .error .unboundLocal := by
  constructor
  · decide
  · with_unfolding_all rfl

/-- C7: `get_derivative` and `get_gradient` fail with the lookup error when a
requested name is absent from the Parameter or Function list (never returning
zero), and return the single gradient entry (respectively the full row) at
the first-occurrence indices when the names are present. -/
theorem C7_accessors (m : Model) (st : St) (f p : String) :
    (idxOf m.param_names p = none →
      get_derivative m st f p = .error .valueError) ∧
    (idxOf (function_names m) f = none →
      get_derivative m st f p = .error .valueError) ∧
    (idxOf (function_names m) f = none →
      get_gradient m st f = .error .valueError) ∧
    (∀ i j, idxOf (function_names m) f = some i → idxOf m.param_names p = some j →
      get_derivative m st f p = .ok (st.gradient i j)) ∧
    (∀ i, idxOf (function_names m) f = some i →
      get_gradient m st f =
        .ok ((List.range m.param_names.length).map (st.gradient i))) := by
  refine ⟨?_, ?_, ?_, ?_, ?_⟩
  · intro hp
    unfold get_derivative pyIndex
    rw [hp]
  · intro hf
    unfold get_derivative pyIndex
    rw [hf]
    cases hq : idxOf m.param_names p <;> rfl
  · intro hf
    unfold get_gradient pyIndex
    rw [hf]
  · intro i j hf hp
    unfold get_derivative pyIndex
    rw [hf, hp]
  · intro i hf
    unfold get_gradient pyIndex
    rw [hf]

theorem C7_accessors_witness :
    get_derivative chainM stDefault "missing" "A.x" = .error .valueError ∧
    get_gradient chainM stDefault "missing" = .error .valueError ∧
    get_derivative chainM stDefault "B.v" "A.x" = .ok (stDefault.gradient 0 0) ∧
    get_gradient chainM stDefault "B.v" =
      .ok ((List.range chainM.param_names.length).map (stDefault.gradient 0)) :=
  ⟨(C7_accessors chainM stDefault "missing" "A.x").2.1 (by decide),
   (C7_accessors chainM stDefault "missing" "A.x").2.2.1 (by decide),
   (C7_accessors chainM stDefault "B.v" "A.x").2.2.2.1 0 0 (by decide) (by decide),
   (C7_accessors chainM stDefault "B.v" "A.x").2.2.2.2 0 (by decide)⟩

/-- C9: the Variable Enumerator is deterministic — two runs on the same edge
dictionaries with the same mode give the same result, hence identical variable
lists (same length, same names, same order). -/
theorem C9_determinism (w : Workflow) (index : Nat)
    (r1 r2 : Except PyErr (List String))
    (h1 : r1 = _edge_counter index "" [] w) (h2 : r2 = _edge_counter index "" [] w) :
    r1 = r2 ∧
    ∀ l1 l2, r1 = .ok l1 → r2 = .ok l2 → l1.length = l2.length ∧ l1 = l2 := by
  subst h1
  subst h2
  refine ⟨rfl, ?_⟩
  intro l1 l2 e1 e2
  rw [e1] at e2
  cases e2
  exact ⟨rfl, rfl⟩

theorem C9_determinism_witness :
    _edge_counter 1 "" [] chainM.workflow = _edge_counter 1 "" [] chainM.workflow ∧
    (_edge_counter 1 "" [] chainM.workflow).toOption.map List.length = some 2 :=
  ⟨(C9_determinism chainM.workflow 1 _ _ rfl rfl).1, by decide⟩

theorem conSide_delta : ∀ (L : List (String × ℚ)) (params vl : List String)
    (sgn : ℚ) (i_eq : Nat) (st : St) (r q : Nat),
    (conSide params vl sgn i_eq st L).EQS r q =
      st.EQS r q + eqsDelta params vl sgn i_eq L r q ∧
    (conSide params vl sgn i_eq st L).EQS_zero r q =
      st.EQS_zero r q + eqs0Delta params vl sgn i_eq L r q := by
  intro L
  induction L with
  | nil =>
      intro params vl sgn i_eq st r q
      simp [conSide, eqsDelta, eqs0Delta]
  | cons e rest ih =>
      intro params vl sgn i_eq st r q
      obtain ⟨nm, v⟩ := e
      simp only [conSide, eqsDelta, eqs0Delta]
      cases hp : idxOf params nm with
      | some ip =>
          dsimp only
          refine ⟨?_, ?_⟩
          · rw [(ih params vl sgn i_eq _ r q).1]
            dsimp only
            ring
          · rw [(ih params vl sgn i_eq _ r q).2]
            dsimp only
            simp only [mset]
            by_cases hc : r = i_eq ∧ q = ip
            · rw [if_pos hc, if_pos hc]
              obtain ⟨h1, h2⟩ := hc
              subst h1
              subst h2
              ring
            · rw [if_neg hc, if_neg hc]
              ring
      | none =>
          cases hv : idxOf vl nm with
          | some iv =>
              dsimp only
              refine ⟨?_, ?_⟩
              · rw [(ih params vl sgn i_eq _ r q).1]
                dsimp only
                simp only [mset]
                by_cases hc : r = i_eq ∧ q = iv
                · rw [if_pos hc, if_pos hc]
                  obtain ⟨h1, h2⟩ := hc
                  subst h1
                  subst h2
                  ring
                · rw [if_neg hc, if_neg hc]
                  ring
              · rw [(ih params vl sgn i_eq _ r q).2]
                dsimp only
                ring
          | none =>
              dsimp only
              refine ⟨?_, ?_⟩
              · rw [(ih params vl sgn i_eq st r q).1]
                ring
              · rw [(ih params vl sgn i_eq st r q).2]
                ring

theorem eqsDelta_neg : ∀ (L : List (String × ℚ)) (params vl : List String)
    (sgn : ℚ) (i_eq r q : Nat),
    eqsDelta params vl (-sgn) i_eq L r q = -(eqsDelta params vl sgn i_eq L r q) := by
  intro L
  induction L with
  | nil =>
      intro params vl sgn i_eq r q
      simp [eqsDelta]
  | cons e rest ih =>
      intro params vl sgn i_eq r q
      obtain ⟨nm, v⟩ := e
      simp only [eqsDelta]
      rw [ih]
      cases hp : idxOf params nm with
      | some ip =>
          dsimp only
          ring
      | none =>
          cases hv : idxOf vl nm with
          | some iv =>
              dsimp only
              by_cases hc : r = i_eq ∧ q = iv
              · rw [if_pos hc, if_pos hc]
                ring
              · rw [if_neg hc, if_neg hc]
                ring
          | none =>
              dsimp only
              ring

theorem eqs0Delta_neg : ∀ (L : List (String × ℚ)) (params vl : List String)
    (sgn : ℚ) (i_eq r q : Nat),
    eqs0Delta params vl (-sgn) i_eq L r q = -(eqs0Delta params vl sgn i_eq L r q) := by
  intro L
  induction L with
  | nil =>
      intro params vl sgn i_eq r q
      simp [eqs0Delta]
  | cons e rest ih =>
      intro params vl sgn i_eq r q
      obtain ⟨nm, v⟩ := e
      simp only [eqs0Delta]
      rw [ih]
      cases hp : idxOf params nm with
      | some ip =>
          dsimp only
          by_cases hc : r = i_eq ∧ q = ip
          · rw [if_pos hc, if_pos hc]
            ring
          · rw [if_neg hc, if_neg hc]
            ring
      | none =>
          dsimp only
          ring

theorem conStep_delta (params vl : List String) (i_eq : Nat)
    (lg rg : List (String × ℚ)) (cmp : String) (st : St) (r q : Nat) :
    (conStep params vl i_eq lg rg cmp st).EQS r q =
      st.EQS r q +
        (eqsDelta params vl (if cmp.contains '>' then -1 else 1) i_eq lg r q +
          eqsDelta params vl (-(if cmp.contains '>' then -1 else 1)) i_eq rg r q) ∧
    (conStep params vl i_eq lg rg cmp st).EQS_zero r q =
      st.EQS_zero r q +
        (eqs0Delta params vl (if cmp.contains '>' then -1 else 1) i_eq lg r q +
          eqs0Delta params vl (-(if cmp.contains '>' then -1 else 1)) i_eq rg r q) := by
  unfold conStep
  constructor
  · rw [(conSide_delta rg params vl _ i_eq _ r q).1,
      (conSide_delta lg params vl _ i_eq st r q).1]
    ring
  · rw [(conSide_delta rg params vl _ i_eq _ r q).2,
      (conSide_delta lg params vl _ i_eq st r q).2]
    ring

/-- C5: when routing constraint gradients, the sign is -1 exactly for a
greater-than comparator and +1 otherwise; each side's contribution is
accumulated additively (the change to EQS/EQS_zero is a delta independent of
the initial matrix contents, so a variable on both sides receives the sum
sign*(dlhs) - sign*(drhs)); and a `>=` constraint contributes exactly the
negation of an otherwise identical `<=` constraint. -/
theorem C5_constraint_sign (params vl : List String) (i_eq : Nat)
    (lg rg : List (String × ℚ)) (cgt cle : String) (st st' : St) (r q : Nat)
    (hgt : cgt.contains '>' = true) (hle : cle.contains '>' = false) :
    ((conStep params vl i_eq lg rg cgt st).EQS r q =
      st.EQS r q + (eqsDelta params vl (-1) i_eq lg r q +
        eqsDelta params vl 1 i_eq rg r q)) ∧
    ((conStep params vl i_eq lg rg cle st).EQS r q =
      st.EQS r q + (eqsDelta params vl 1 i_eq lg r q +
        eqsDelta params vl (-1) i_eq rg r q)) ∧
    ((conStep params vl i_eq lg rg cgt st).EQS r q - st.EQS r q =
      (conStep params vl i_eq lg rg cgt st').EQS r q - st'.EQS r q) ∧
    ((conStep params vl i_eq lg rg cgt st).EQS r q - st.EQS r q =
      -((conStep params vl i_eq lg rg cle st).EQS r q - st.EQS r q)) ∧
    ((conStep params vl i_eq lg rg cgt st).EQS_zero r q - st.EQS_zero r q =
      -((conStep params vl i_eq lg rg cle st).EQS_zero r q - st.EQS_zero r q)) := by
  have hg := conStep_delta params vl i_eq lg rg cgt st r q
  have hgp := conStep_delta params vl i_eq lg rg cgt st' r q
  have hl := conStep_delta params vl i_eq lg rg cle st r q
  rw [hgt] at hg hgp
  rw [hle] at hl
  simp at hg hgp hl
  refine ⟨hg.1, hl.1, ?_, ?_, ?_⟩
  · rw [hg.1, hgp.1]
    ring
  · rw [hg.1, hl.1, eqsDelta_neg lg params vl 1 i_eq r q,
      eqsDelta_neg rg params vl 1 i_eq r q]
    ring
  · rw [hg.2, hl.2, eqs0Delta_neg lg params vl 1 i_eq r q,
      eqs0Delta_neg rg params vl 1 i_eq r q]
    ring

theorem C5_constraint_sign_witness :
    (conStep ["p"] ["x"] 0 [("x", 2)] [("p", 3)] ">=" stDefault).EQS 0 0 =
      stDefault.EQS 0 0 + (eqsDelta ["p"] ["x"] (-1) 0 [("x", 2)] 0 0 +
        eqsDelta ["p"] ["x"] 1 0 [("p", 3)] 0 0) ∧
    (conStep ["p"] ["x"] 0 [("x", 2)] [("p", 3)] ">=" stDefault).EQS 0 0 -
        stDefault.EQS 0 0 =
      -((conStep ["p"] ["x"] 0 [("x", 2)] [("p", 3)] "<=" stDefault).EQS 0 0 -
        stDefault.EQS 0 0) :=
  ⟨(C5_constraint_sign ["p"] ["x"] 0 [("x", 2)] [("p", 3)] ">=" "<=" stDefault
      stDefault 0 0 (by with_unfolding_all decide) (by with_unfolding_all decide)).1,
   (C5_constraint_sign ["p"] ["x"] 0 [("x", 2)] [("p", 3)] ">=" "<=" stDefault
      stDefault 0 0 (by with_unfolding_all decide) (by with_unfolding_all decide)).2.2.2.1⟩

/-- C6: for an input resolved through an external connection whose expression
carries a unit boundary, the LHS entry written by the assembler equals
-(local derivative) * (expression derivative) * (conversion factor); and on
the concrete chain with factor k = 2 both the entry and the resulting total
derivative are exactly double their unconverted values. -/
theorem C6_unit_conversion (ctx : Ctx) (derivs : String → String → Option ℚ)
    (cname o inp : String) (st : St) (i_eq : Nat) (fr : Frame)
    (et0 tg : String) (rest : List (String × String)) (su tu : String)
    (iv : Nat) (d : ℚ)
    (hp : idxOf ctx.params (cname ++ "." ++ inp) = none)
    (hsc : scLookup ctx.sc (cname ++ "." ++ inp) = none)
    (hconn : ctx.ascope.connectionsTo (cname ++ "." ++ inp) = (et0, tg) :: rest)
    (het : et0.startsWith "@bin" = false)
    (hsu : ctx.ascope.exprUnit et0 (ctx.ascope.exprSource et0) = some su)
    (hsu0 : ¬ su = "")
    (htu : ctx.ascope.exprUnit tg tg = some tu)
    (hiv : idxOf st.var_list (ctx.h ++ ctx.ascope.exprSource et0) = some iv)
    (hd : derivs o inp = some d) :
    (procInput ctx derivs cname o st i_eq fr inp).toOption.map
        (fun pr => pr.1.LHS i_eq iv) =
      some (-(d * ctx.ascope.exprDeriv et0 * ctx.cu su tu)) ∧
    get_derivative unitChainM
      ((calc_gradient unitChainM none).toOption.getD stDefault) "B.v" "A.x" =
        .ok 12 ∧
    (_assemble_direct unitChainM ((setup unitChainM).toOption.getD stDefault)).toOption.map
        (fun p => p.1.LHS 1 0) = some (-6) ∧
    get_derivative chainM
      ((calc_gradient chainM none).toOption.getD stDefault) "B.v" "A.x" = .ok 6 ∧
    (_assemble_direct chainM chainSt).toOption.map (fun p => p.1.LHS 1 0) =
      some (-3) ∧
    (12 : ℚ) = 2 * 6 ∧ (-6 : ℚ) = 2 * -3 := by
  refine ⟨?_, by with_unfolding_all rfl, by with_unfolding_all rfl,
    by with_unfolding_all rfl, by with_unfolding_all rfl, by norm_num, by norm_num⟩
  have hstep : procInput ctx derivs cname o st i_eq fr inp =
      .ok (setLHS st i_eq iv
        (-d * (ctx.ascope.exprDeriv et0 * ctx.cu su tu)),
        { fr with expr_txt := some et0, target := some tg }) := by
    simp only [procInput, procInputExt, applyUnits, hp, hsc, hconn, het, hsu,
      htu, hiv, hd, hsu0, Bool.false_eq_true, if_false, if_neg, ite_false]
  rw [hstep]
  simp only [Except.toOption, Option.map_some', setLHS, mset, eq_self_iff_true,
    and_self, if_true, Option.some.injEq]
  ring

theorem C6_unit_conversion_witness :
    (procInput (topCtx unitChainM) (oneDeriv "v" "u" 3) "B" "v" unitChainSt 1
        Frame.empty "u").toOption.map (fun pr => pr.1.LHS 1 0) =
      some (-(3 * (topCtx unitChainM).ascope.exprDeriv "A.y" *
        (topCtx unitChainM).cu "m" "cm")) :=
  (C6_unit_conversion (topCtx unitChainM) (oneDeriv "v" "u" 3) "B" "v" "u"
    unitChainSt 1 Frame.empty "A.y" "B.u" [] "m" "cm" 0 3
    (by with_unfolding_all decide) (by with_unfolding_all decide)
    (by with_unfolding_all decide) (by with_unfolding_all decide)
    (by with_unfolding_all decide) (by with_unfolding_all decide)
    (by with_unfolding_all decide) (by with_unfolding_all decide)
    (by with_unfolding_all decide)).1

/-- C10 (amended): each (output, input) pair is classified by exactly one rule
with fixed precedence — parameter first, then solver, then external — but the
solver rule fires when the input's full name is a KEY of `solver_conns`
(one of the solver's independent parameters), and it writes the negative
local derivative into the LHS column of the stored DEPENDENT variable; in the
first two branches the result does not depend on the scope's connection data
(the external connection is never resolved), and only in the remaining case
is the external resolver consulted. -/
theorem C10_precedence_amended (ctx : Ctx) (derivs : String → String → Option ℚ)
    (cname o inp : String) (st : St) (i_eq : Nat) (fr : Frame) :
    (∀ ip v, idxOf ctx.params (cname ++ "." ++ inp) = some ip →
      derivs o inp = some v →
      ∀ (sd2 : ScopeData) (sc2 : Option (List (String × String))),
        procInput { ctx with ascope := sd2, sc := sc2 } derivs cname o st i_eq fr inp =
          .ok ({ st with RHS := mset st.RHS i_eq ip v }, fr)) ∧
    (∀ src i_dep v, idxOf ctx.params (cname ++ "." ++ inp) = none →
      scLookup ctx.sc (cname ++ "." ++ inp) = some src →
      idxOf st.var_list src = some i_dep → derivs o inp = some v →
      ∀ sd2 : ScopeData,
        procInput { ctx with ascope := sd2 } derivs cname o st i_eq fr inp =
          .ok (setLHS st i_eq i_dep (-v), fr)) ∧
    (idxOf ctx.params (cname ++ "." ++ inp) = none →
      scLookup ctx.sc (cname ++ "." ++ inp) = none →
      ctx.ascope.connectionsTo (cname ++ "." ++ inp) = [] →
      procInput ctx derivs cname o st i_eq fr inp = .error .indexError) := by
  refine ⟨?_, ?_, ?_⟩
  · intro ip v hip hv sd2 sc2
    simp only [procInput, hip, hv]
  · intro src i_dep v hip hsrc hdep hv sd2
    simp only [procInput, hip, hsrc, hdep, hv]
  · intro hip hsrc hconn
    simp only [procInput, procInputExt, hip, hsrc, hconn]

/-- C10 counterexample: the input `c2.x2` is a dependent in the enclosing
solver's map and is externally connected; the claim says the solver rule
handles it (writing into the independent's column) and its external connection
is never resolved, but the code classifies it by the external rule and
resolves the connection, writing -4 into the column of `c1.y1`, while the
claim's own rule fails with a lookup error. -/
theorem C10_counterexample :
    (procInput ctxC10 (oneDeriv "y2" "x2" 4) "c2" "y2" stC10 1 Frame.empty
        "x2").isOk = true ∧
    (procInput ctxC10 (oneDeriv "y2" "x2" 4) "c2" "y2" stC10 1 Frame.empty
        "x2").toOption.map (fun pr => pr.1.LHS 1 0) = some (-4) ∧
    akeyOf [("c9.q", "c2.x2")] "c2.x2" = some "c9.q" ∧
    procInputClaim ctxC10 (oneDeriv "y2" "x2" 4) "c2" "y2" stC10 1 Frame.empty
        "x2" = .error .valueError ∧
    procInput ctxC10 (oneDeriv "y2" "x2" 4) "c2" "y2" stC10 1 Frame.empty "x2" ≠
      procInputClaim ctxC10 (oneDeriv "y2" "x2" 4) "c2" "y2" stC10 1 Frame.empty
        "x2" := by
  refine ⟨?_, ?_, ?_, ?_, ?_⟩
  · with_unfolding_all decide
  · with_unfolding_all decide
  · with_unfolding_all decide
  · with_unfolding_all rfl
  · intro hcontra
    have h1 : (procInput ctxC10 (oneDeriv "y2" "x2" 4) "c2" "y2" stC10 1
        Frame.empty "x2").isOk = true := by with_unfolding_all decide
    have h2 : (procInputClaim ctxC10 (oneDeriv "y2" "x2" 4) "c2" "y2" stC10 1
        Frame.empty "x2").isOk = false := by with_unfolding_all decide
    rw [hcontra] at h1
    rw [h1] at h2
    cases h2

theorem C10_precedence_witness :
    procInput { ctxC10 with sc := some [("c1.x1", "c2.x2")], ascope := emptyScope }
        (oneDeriv "y" "x1" 7) "c1" "y" { stDefault with var_list := ["c2.x2"] } 0
        Frame.empty "x1" =
      .ok (setLHS { stDefault with var_list := ["c2.x2"] } 0 0 (-7),
        Frame.empty) :=
  (C10_precedence_amended { ctxC10 with sc := some [("c1.x1", "c2.x2")] }
      (oneDeriv "y" "x1" 7) "c1" "y" "x1"
      { stDefault with var_list := ["c2.x2"] } 0 Frame.empty).2.1
    "c2.x2" 0 7 (by with_unfolding_all decide) (by with_unfolding_all decide)
    (by with_unfolding_all decide) (by with_unfolding_all decide) emptyScope

/-- C8 (amended): a model containing a nested driver without solver capability
is never silently skipped: the enumerator always fails with exactly the
'only nested solvers supported' signal, assembly always fails (and the
bad-driver step itself raises exactly that signal when reached), and no
gradient is produced; assembly's overall error carries the signal except when
another structural fault precedes the bad driver in traversal order. -/
theorem C8_bad_driver_amended (m : Model) (st : St) (index : Nat)
    (hbad : wfHasBad m.workflow = true) :
    _edge_counter index "" [] m.workflow = .error .onlyNestedSolvers ∧
    (_assemble_direct m st).isOk = false ∧
    (calc_gradient m none).isOk = false ∧
    (∀ (ctx : Ctx) (st3 : St) (i3 : Nat) (fr : Frame) (d : DrvInfo)
        (w : Workflow), d.isSolver = false →
      _asm_node ctx st3 i3 fr (.drv d w) = .error .onlyNestedSolvers ∧
      _edge_counter_node index ctx.h [] (.drv d w) = .error .onlyNestedSolvers) := by
  refine ⟨edge_counter_bad m.workflow index "" [] hbad, ?_, ?_, ?_⟩
  · unfold _assemble_direct
    cases hres : _asm_list (topCtx m) st 0 Frame.empty m.workflow with
    | error e => rfl
    | ok r =>
        obtain ⟨st1, i1, fr1⟩ := r
        rw [_asm_list_ok_noBad m.workflow _ _ _ _ _ _ _ hres] at hbad
        cases hbad
  · have hsetup : setup m = .error .onlyNestedSolvers := by
      unfold setup
      dsimp only
      rw [edge_counter_bad m.workflow _ "" [] hbad]
    unfold calc_gradient cachedSetup
    rw [hsetup]
    rfl
  · intro ctx st3 i3 fr d w hd
    constructor
    · simp only [_asm_node, hd, Bool.false_eq_true, if_false]
    · simp only [_edge_counter_node, hd, Bool.false_eq_true, if_false]

theorem C8_bad_driver_witness :
    wfHasBad badDrvM.workflow = true ∧
    _edge_counter 1 "" [] badDrvM.workflow = .error .onlyNestedSolvers ∧
    (_assemble_direct badDrvM stDefault).isOk = false ∧
    (calc_gradient badDrvM none).isOk = false :=
  ⟨by decide,
   (C8_bad_driver_amended badDrvM stDefault 1 (by decide)).1,
   (C8_bad_driver_amended badDrvM stDefault 1 (by decide)).2.1,
   (C8_bad_driver_amended badDrvM stDefault 1 (by decide)).2.2.1⟩

/-- C8 counterexample: in a workflow whose first node is a nested solver with
a malformed equality constraint and whose second node is a driver without
solver capability, assembly fails with the 'no independent' error, not the
'only nested solvers supported' signal the claim requires, although the model
contains a non-solver nested driver (enumeration still carries the signal). -/
theorem C8_counterexample :
    wfHasBad preemptM.workflow = true ∧
    _assemble_direct preemptM stDefault = .error .noIndependent ∧
    (PyErr.noIndependent ≠ PyErr.onlyNestedSolvers) ∧
    _edge_counter 1 "" [] preemptM.workflow = .error .onlyNestedSolvers := by
  refine ⟨by decide, ?_, by decide, by with_unfolding_all rfl⟩
  with_unfolding_all rfl
